import Mathlib

/-!
Shallow embedding of `alcohol_tracker.py` (Alcohol_Intake_Tracker).

The program is a console tool over an SQLite database with three tables
(Drinks, Ingredients, DrinkRecipes).  We model:

* SQLite values as the inductive `Value` (NULL, INTEGER, REAL, TEXT).
  REAL is modelled as a rational number; the program only stores user input
  parsed by Python's `float`, and no claim depends on IEEE rounding.
* the database as an association list from table name to `Table`
  (column specs in declaration order, rows in insertion order).
  Table names are matched exactly (the program always uses one spelling).
* console I/O as explicit lists of input lines and produced output lines;
  the retry loops of `get_int` / `get_float` / `get_str` become structural
  recursion over the remaining input lines, returning `none` when the
  input is exhausted (Python would raise `EOFError` there).
* Python's `int(...)` and `float(...)` conversions as parsers over the
  trimmed string (optional sign, digits with single underscores between
  them; `float` additionally accepts a decimal point and an exponent;
  the `inf` / `nan` spellings are not modelled, no claim touches them).
* Python's `str.isalpha` via `Char.isAlpha`; the claims only exercise
  ASCII input, where the two agree.
-/

inductive Value where
  | VNull : Value
  | VInt : Int → Value
  | VReal : ℚ → Value
  | VStr : String → Value
deriving DecidableEq, Repr

open Value

/-- A table: the raw column specs handed to CREATE TABLE (for example
"id INTEGER"), in order, and the stored rows in insertion order. -/
structure Table where
  cols : List String
  rows : List (List Value)
deriving DecidableEq, Repr

/-- The database file: an association list from table name to table,
in creation order. -/
abbrev DB := List (String × Table)

/-- Column name of a column spec such as "id INTEGER": its first word. -/
def colName (spec : String) : String :=
  String.mk (spec.toList.takeWhile (fun c => c ≠ ' '))

/-- Index of the column with the given name in the table, if any. -/
def colIndex (t : Table) (name : String) : Option Nat :=
  (t.cols.map colName).indexOf? name

/-- Replace the named table's contents, leaving every other table alone. -/
def updateTable : DB → String → Table → DB
  | [], _, _ => []
  | (k, v) :: rest, name, t =>
    if k = name then (name, t) :: updateTable rest name t
    else (k, v) :: updateTable rest name t

/-- SQLite equality as used in WHERE clauses: NULL compares unequal to
everything (the comparison is NULL, hence not satisfied), INTEGER and REAL
compare numerically, TEXT compares by string equality, and values of
different storage classes are unequal. -/
def sqlEq (a b : Value) : Bool :=
  match a, b with
  | VNull, _ => false
  | _, VNull => false
  | VInt m, VInt n => m == n
  | VInt m, VReal q => ((m : ℚ) == q)
  | VReal q, VInt n => (q == (n : ℚ))
  | VReal p, VReal q => p == q
  | VStr s, VStr t => s == t
  | _, _ => false

/-- SQLite ordering between non-NULL values, used by the MAX aggregate:
numbers sort below text, numbers compare numerically, text lexicographically. -/
def valueLt (a b : Value) : Bool :=
  match a, b with
  | VNull, _ => false
  | _, VNull => false
  | VInt m, VInt n => m < n
  | VInt m, VReal q => ((m : ℚ) < q)
  | VReal q, VInt n => (q < (n : ℚ))
  | VReal p, VReal q => p < q
  | VStr s, VStr t => s < t
  | VStr _, _ => false
  | _, VStr _ => true

/-- One step of the MAX aggregate: a NULL input is ignored, otherwise the
running maximum is updated. -/
def sqlMaxStep (v : Value) (acc : Option Value) : Option Value :=
  match v, acc with
  | VNull, r => r
  | w, none => some w
  | w, some m => some (if valueLt w m then m else w)

/-- The MAX aggregate: NULL inputs are ignored; the result is NULL
(`none`) when no non-NULL value remains. -/
def sqliteMax : List Value → Option Value
  | [] => none
  | v :: vs => sqlMaxStep v (sqliteMax vs)

/- ## Python value conversion -/

/-- Digit run with optional single underscores between digits, as accepted
inside Python numeric literals; returns the value and the number of digits. -/
def digitsRun : List Char → Nat → Nat → Option (Nat × Nat)
  | [], acc, cnt => some (acc, cnt)
  | '_' :: c :: cs, acc, cnt =>
    if c.isDigit then digitsRun cs (acc * 10 + (c.toNat - 48)) (cnt + 1) else none
  | c :: cs, acc, cnt =>
    if c.isDigit then digitsRun cs (acc * 10 + (c.toNat - 48)) (cnt + 1) else none

/-- Nonempty digit run (no leading underscore allowed). -/
def parseDigits (cs : List Char) : Option (Nat × Nat) :=
  match cs with
  | [] => none
  | c :: cs' => if c.isDigit then digitsRun cs' (c.toNat - 48) 1 else none

/-- The whitespace characters Python's `int` / `float` conversions strip. -/
def isPySpace (c : Char) : Bool :=
  c == ' ' || c == '\t' || c == '\n' || c == '\r' || c == '\x0b' || c == '\x0c'

/-- Strip leading and trailing whitespace. -/
def pyStrip (cs : List Char) : List Char :=
  ((cs.dropWhile isPySpace).reverse.dropWhile isPySpace).reverse

/-- Split a character list at every occurrence of the separator. -/
def splitOnChar (sep : Char) : List Char → List (List Char)
  | [] => [[]]
  | c :: cs =>
    if c = sep then [] :: splitOnChar sep cs
    else
      match splitOnChar sep cs with
      | [] => [[c]]
      | h :: t => (c :: h) :: t

/-- Python's `int(s)`: strip whitespace, optional sign, digits. -/
def pyParseInt (s : String) : Option Int :=
  match pyStrip s.toList with
  | '+' :: rest => (parseDigits rest).map (fun p => (p.1 : Int))
  | '-' :: rest => (parseDigits rest).map (fun p => -(p.1 : Int))
  | rest => (parseDigits rest).map (fun p => (p.1 : Int))

/-- Mantissa of a Python float literal: digits, digits.digits, digits., or .digits. -/
def parseMantissa (cs : List Char) : Option ℚ :=
  match splitOnChar '.' cs with
  | [ip] => (parseDigits ip).map (fun p => (p.1 : ℚ))
  | [ip, fp] =>
    match ip, fp with
    | [], _ => (parseDigits fp).map (fun p => (p.1 : ℚ) / (10 : ℚ) ^ p.2)
    | _, [] => (parseDigits ip).map (fun p => (p.1 : ℚ))
    | _, _ =>
      match parseDigits ip, parseDigits fp with
      | some a, some b => some ((a.1 : ℚ) + (b.1 : ℚ) / (10 : ℚ) ^ b.2)
      | _, _ => none
  | _ => none

/-- Signed exponent of a Python float literal. -/
def parseExp (cs : List Char) : Option Int :=
  match cs with
  | '+' :: rest => (parseDigits rest).map (fun p => (p.1 : Int))
  | '-' :: rest => (parseDigits rest).map (fun p => -(p.1 : Int))
  | rest => (parseDigits rest).map (fun p => (p.1 : Int))

/-- Python's `float(s)` on finite decimal input: strip whitespace, optional
sign, mantissa, optional exponent introduced by `e` or `E`.  The special
spellings `inf` and `nan` are not modelled (no claim exercises them). -/
def pyParseFloat (s : String) : Option ℚ :=
  let stripped := pyStrip s.toList
  let (sgn, body) :=
    match stripped with
    | '+' :: rest => ((1 : ℚ), rest)
    | '-' :: rest => ((-1 : ℚ), rest)
    | rest => ((1 : ℚ), rest)
  match splitOnChar 'e' (body.map (fun c => if c = 'E' then 'e' else c)) with
  | [m] => (parseMantissa m).map (fun q => sgn * q)
  | [m, e] =>
    match parseMantissa m, parseExp e with
    | some q, some k =>
      some (sgn * (if 0 ≤ k then q * (10 : ℚ) ^ k.toNat else q / (10 : ℚ) ^ (-k).toNat))
    | _, _ => none
  | _ => none

/-- Python's `str.isalpha`: nonempty and every character a letter. -/
def pyIsAlpha (s : String) : Bool :=
  !s.toList.isEmpty && s.toList.all Char.isAlpha

/- ## Validated input readers

Each reader takes the prompt and the remaining input lines, and returns
the typed value, the console output it produced (the prompt echoed by
`input` on each attempt, plus an error line per rejected attempt), and the
input lines it did not consume.  `none` means the input ran out (Python's
`input` would raise `EOFError`). -/

def intErrMsg : String := "<<< Please enter whole numbers only >>>"

def floatErrMsg : String := "<<< Please enter numbers only >>>"

def strErrMsg : String := "<<< Please enter letters only >>>"

/-- Loop of `get_int`: keep prompting until a line parses as an int. -/
def get_int (display_string : String) : List String → Option (Int × List String × List String)
  | [] => none
  | line :: rest =>
    match pyParseInt line with
    | some n => some (n, [display_string], rest)
    | none =>
      match get_int display_string rest with
      | none => none
      | some (v, outs, rem) => some (v, display_string :: intErrMsg :: outs, rem)

/-- Loop of `get_float`: keep prompting until a line parses as a float. -/
def get_float (display_string : String) : List String → Option (ℚ × List String × List String)
  | [] => none
  | line :: rest =>
    match pyParseFloat line with
    | some q => some (q, [display_string], rest)
    | none =>
      match get_float display_string rest with
      | none => none
      | some (v, outs, rem) => some (v, display_string :: floatErrMsg :: outs, rem)

/-- Loop of `get_str`: keep prompting until a line satisfies `isalpha`. -/
def get_str (display_string : String) : List String → Option (String × List String × List String)
  | [] => none
  | line :: rest =>
    if pyIsAlpha line then
      some (line, [display_string], rest)
    else
      match get_str display_string rest with
      | none => none
      | some (v, outs, rem) => some (v, display_string :: strErrMsg :: outs, rem)

/- ## Generic table layer -/

/-- CREATE TABLE IF NOT EXISTS: a no-op when the table already exists
(whatever its schema); otherwise appends a fresh empty table. -/
def create_table (db : DB) (table_name : String) (columns : List String) : DB :=
  if (db.lookup table_name).isSome then db
  else db ++ [(table_name, ⟨columns, []⟩)]

/-- INSERT INTO table VALUES (?, ..., ?): appends one row.  SQLite errors
when the table is missing or the arity differs from the column count. -/
def insert_into_table (db : DB) (table_name : String) (values : List Value) :
    Except String DB :=
  match db.lookup table_name with
  | none => .error ("no such table: " ++ table_name)
  | some t =>
    if values.length = t.cols.length then
      .ok (updateTable db table_name ⟨t.cols, t.rows ++ [values]⟩)
    else
      .error ("table " ++ table_name ++ " arity mismatch")

/-- Resolve the WHERE conditions "k = ?" built from the keyword arguments,
in order, to (column index, expected value) pairs; `none` when some named
column does not exist in the table. -/
def resolveConds (t : Table) : List (String × Value) → Option (List (Nat × Value))
  | [] => some []
  | kv :: rest =>
    match colIndex t kv.1, resolveConds t rest with
    | some i, some cs => some ((i, kv.2) :: cs)
    | _, _ => none

/-- SELECT COUNT(*) FROM table WHERE k1 = ? AND ... AND kn = ?, then
compare the count with zero.  The WHERE clause is built from the keyword
arguments in order; a missing table or column is an SQL error. -/
def entry_already_exists (db : DB) (table : String) (kwargs : List (String × Value)) :
    Except String Bool :=
  match db.lookup table with
  | none => .error ("no such table: " ++ table)
  | some t =>
    match resolveConds t kwargs with
    | none => .error "no such column"
    | some conds =>
      .ok (decide (0 < t.rows.countP
        (fun row => conds.all (fun c => sqlEq (row.getD c.1 VNull) c.2))))

/-- SELECT * FROM table: the column names (from the cursor description)
and every stored row, in storage order.  The program prints the names and
each row tab-separated; we return the data it prints. -/
def view_table (db : DB) (table_name : String) :
    Except String (List String × List (List Value)) :=
  match db.lookup table_name with
  | none => .error ("no such table: " ++ table_name)
  | some t => .ok (t.cols.map colName, t.rows)

/-- SELECT MAX(id) FROM table, as run by both `create` builders. -/
def selectMaxId (db : DB) (table : String) : Except String (Option Value) :=
  match db.lookup table with
  | none => .error ("no such table: " ++ table)
  | some t =>
    match colIndex t "id" with
    | none => .error "no such column: id"
    | some i => .ok (sqliteMax (t.rows.map (fun r => r.getD i VNull)))

/-- Python's `max_id + 1`: defined on the numeric values the program can
actually read back from an id column; anything else is a runtime TypeError. -/
def pyAddOne : Value → Except String Value
  | VInt n => .ok (VInt (n + 1))
  | VReal q => .ok (VReal (q + 1))
  | _ => .error "unsupported operand type for +"

/- ## Entry builders -/

/-- Drink.create: read MAX(id) from Drinks, add one (1 when the table is
empty), then read the four text fields with plain `input` (no validation).
Returns the positional record and the input lines left over. -/
def Drink.create (db : DB) (inputs : List String) :
    Except String (List Value × List String) := do
  let max_id ← selectMaxId db "Drinks"
  let drink_id ←
    match max_id with
    | none => pure (VInt 1)
    | some v => pyAddOne v
  match inputs with
  | name :: description :: method :: garnish :: rest =>
    pure ([drink_id, VStr name, VStr description, VStr method, VStr garnish], rest)
  | _ => .error "EOF when reading a line"

/-- Ingredient.create: read MAX(id) from Ingredients, add one (1 when the
table is empty), read the six text fields with plain `input`, then the ABV
through the validated float reader (`ask_abv`). -/
def Ingredient.create (db : DB) (inputs : List String) :
    Except String (List Value × List String) := do
  let max_id ← selectMaxId db "Ingredients"
  let ingredient_id ←
    match max_id with
    | none => pure (VInt 1)
    | some v => pyAddOne v
  match inputs with
  | category :: group :: name :: brand :: description :: measure :: rest =>
    match get_float "Enter the ABV: " rest with
    | none => .error "EOF when reading a line"
    | some (abv, _, rem) =>
      pure ([ingredient_id, VStr category, VStr group, VStr name,
             VStr brand, VStr description, VStr measure, VReal abv], rem)
  | _ => .error "EOF when reading a line"

/- ## Entry orchestrator -/

/-- Python's `str.lower`, characterwise. -/
def pyLower (s : String) : String :=
  String.mk (s.toList.map Char.toLower)

/-- Python's `table[:-1].lower()`: the table name without its final
character, lowercased. -/
def entryType (table : String) : String :=
  pyLower (String.mk table.toList.dropLast)

/-- ask_and_insert_entry: run the builder, check for a row with the same
id, and either report the duplicate (discarding the candidate) or insert
the full record.  Returns the updated database and the lines printed. -/
def ask_and_insert_entry (db : DB) (table : String)
    (create : DB → List String → Except String (List Value × List String))
    (inputs : List String) : Except String (DB × List String) := do
  let entry_type := entryType table
  let (entry_data, _rest) ← create db inputs
  match entry_data with
  | [] => .error "list index out of range"
  | v0 :: _ =>
    match entry_already_exists db table [("id", v0)] with
    | .error e => .error e
    | .ok true => pure (db, ["This " ++ entry_type ++ " already exists."])
    | .ok false =>
      match insert_into_table db table entry_data with
      | .error e => .error e
      | .ok db' => pure (db', [])

/- ## Connection lifecycle

The source opens a connection, executes one statement, commits when
mutating, and then closes — with plain straight-line code, no
`with`-block and no `try/finally`.  We instrument the two cited store
accesses with the sequence of connection events their code emits:
when the executed statement raises, control leaves the function before
the `conn.close()` line, so no `closed` event is emitted. -/

inductive ConnEvent where
  | opened : ConnEvent
  | committed : ConnEvent
  | closed : ConnEvent
deriving DecidableEq, Repr

/-- create_table with its connection events: connect, execute (CREATE
TABLE IF NOT EXISTS never raises here), commit, close. -/
def create_table_events (db : DB) (table_name : String) (columns : List String) :
    DB × List ConnEvent :=
  (create_table db table_name columns,
   [ConnEvent.opened, ConnEvent.committed, ConnEvent.closed])

/-- entry_already_exists with its connection events: connect, execute the
SELECT — which raises on a missing table or column, skipping the
`conn.close()` line — then close on the normal path. -/
def entry_already_exists_events (db : DB) (table : String)
    (kwargs : List (String × Value)) : Except String Bool × List ConnEvent :=
  match entry_already_exists db table kwargs with
  | .error e => (.error e, [ConnEvent.opened])
  | .ok b => (.ok b, [ConnEvent.opened, ConnEvent.closed])

/- ## The operations of the program, as one step relation -/

/-- Every operation of the program that touches the store. -/
inductive Op where
  | createTable (table_name : String) (columns : List String) : Op
  | existsCheck (table : String) (kwargs : List (String × Value)) : Op
  | insertRow (table_name : String) (values : List Value) : Op
  | viewTable (table_name : String) : Op
  | askInsert (table : String)
      (create : DB → List String → Except String (List Value × List String))
      (inputs : List String) : Op

/-- Run one operation against the store; the read-only operations return
the store unchanged. -/
def runOp (db : DB) : Op → Except String DB
  | .createTable n cols => .ok (create_table db n cols)
  | .existsCheck t kw => (entry_already_exists db t kw).map (fun _ => db)
  | .insertRow t vs => insert_into_table db t vs
  | .viewTable t => (view_table db t).map (fun _ => db)
  | .askInsert t create inputs =>
    (ask_and_insert_entry db t create inputs).map Prod.fst

/-- One store state extends another append-only: every table keeps its
schema, and its rows are either untouched or extended by exactly one row
at the end; in particular no stored row is modified or removed. -/
def AppendOnly (db db' : DB) : Prop :=
  ∀ name t, db.lookup name = some t →
    ∃ t', db'.lookup name = some t' ∧ t'.cols = t.cols ∧
      (t'.rows = t.rows ∨ ∃ r, t'.rows = t.rows ++ [r])

/-- A row satisfies a constraint mapping when, for every named column,
the row's cell in that column is SQL-equal to the expected value. -/
def RowSatisfies (t : Table) (row : List Value) (kwargs : List (String × Value)) : Prop :=
  ∀ kv ∈ kwargs, ∃ i, colIndex t kv.1 = some i ∧ sqlEq (row.getD i VNull) kv.2 = true

/-- The console output of a validated reader that rejects `i` lines and
then succeeds: prompt, error, prompt, error, ..., prompt. -/
def retryOuts (p e : String) : Nat → List String
  | 0 => [p]
  | i + 1 => p :: e :: retryOuts p e i

/- ## Concrete fixtures

The startup schema of the main program, and one sample row, used to
instantiate the theorems below on concrete stores. -/

def drinksCols : List String :=
  ["id INTEGER", "drink_name TEXT", "drink_description TEXT",
   "drink_method TEXT", "drink_garnish TEXT"]

def ingredientsCols : List String :=
  ["id INTEGER", "ingredient_category TEXT", "ingredient_group TEXT",
   "ingredient_name TEXT", "ingredient_brand TEXT",
   "ingredient_description TEXT", "ingredient_measure TEXT",
   "ingredient_abv REAL"]

def drinkRecipesCols : List String :=
  ["id INTEGER", "drink_id INTEGER", "ingredient_id INTEGER",
   "ingredient_volume REAL"]

/-- The store right after the three startup create_table calls. -/
def dbStart : DB :=
  create_table
    (create_table (create_table [] "Drinks" drinksCols)
      "Ingredients" ingredientsCols)
    "DrinkRecipes" drinkRecipesCols

def negroniRow : List Value :=
  [VInt 1, VStr "Negroni", VStr "Classic", VStr "Stirred", VStr "Orange peel"]

/-- The store with one drink row inserted. -/
def dbOne : DB := updateTable dbStart "Drinks" ⟨drinksCols, [negroniRow]⟩

/-- Console input for one Drink entry: the four text fields. -/
def negroniInputs : List String :=
  ["Negroni", "Classic", "Stirred", "Orange peel"]

/-- Console input for one Ingredient entry: six text fields, then the ABV. -/
def ingInputsW : List String :=
  ["Beer", "Ale", "Neck Oil", "Beavertown", "", "ml", "4"]

/-- The record the Ingredient builder assembles from `ingInputsW` on the
startup store. -/
def ingCreateResW : List Value × List String :=
  ((Ingredient.create dbStart ingInputsW).toOption).getD ([], [])

/- ## Helper lemmas -/

theorem lookup_updateTable (db : DB) (name n : String) (t : Table) :
    (updateTable db name t).lookup n =
      if n = name then ((db.lookup n).map (fun _ => t)) else db.lookup n := by
  induction db with
  | nil => by_cases h : n = name <;> simp [updateTable, h]
  | cons p rest ih =>
    obtain ⟨k, v⟩ := p
    by_cases hk : k = name
    · subst hk
      by_cases hn : n = k
      · subst hn
        simp [updateTable, List.lookup, ih]
      · simp [updateTable, List.lookup, hn, beq_false_of_ne hn, ih]
    · by_cases hn : n = k
      · subst hn
        simp [updateTable, List.lookup, hk, Ne.symm hk]
      · simp [updateTable, List.lookup, hk, beq_false_of_ne hn, ih]

theorem lookup_append_left (db l : DB) (n : String) (t : Table)
    (h : db.lookup n = some t) : (db ++ l).lookup n = some t := by
  induction db with
  | nil => simp [List.lookup] at h
  | cons p rest ih =>
    obtain ⟨k, v⟩ := p
    by_cases hn : n = k
    · subst hn
      simp [List.lookup] at h ⊢
      exact h
    · simp [List.lookup, beq_false_of_ne hn] at h ⊢
      exact ih h

theorem lookup_append_isSome (db : DB) (n : String) (t : Table) :
    ((db ++ [(n, t)]).lookup n).isSome := by
  induction db with
  | nil => simp [List.lookup]
  | cons p rest ih =>
    obtain ⟨k, v⟩ := p
    by_cases hn : n = k
    · subst hn
      simp [List.lookup]
    · simp [List.lookup, beq_false_of_ne hn, ih]

theorem conds_all_iff (t : Table) (row : List Value) :
    ∀ (kwargs : List (String × Value)) (conds : List (Nat × Value)),
      resolveConds t kwargs = some conds →
      ((conds.all (fun c => sqlEq (row.getD c.1 VNull) c.2)) = true ↔
        RowSatisfies t row kwargs) := by
  intro kwargs
  induction kwargs with
  | nil =>
    intro conds h
    simp only [resolveConds, Option.some.injEq] at h
    subst h
    simp [RowSatisfies]
  | cons kv rest ih =>
    intro conds h
    simp only [resolveConds] at h
    cases hci : colIndex t kv.1 with
    | none => simp [hci] at h
    | some i =>
      cases hrc : resolveConds t rest with
      | none => simp [hci, hrc] at h
      | some cs =>
        simp only [hci, hrc, Option.some.injEq] at h
        subst h
        rw [List.all_cons]
        constructor
        · intro hand
          have h1 := (Bool.and_eq_true _ _).mp hand
          intro kv' hkv'
          rcases List.mem_cons.mp hkv' with hkv' | hkv'
          · subst hkv'
            exact ⟨i, hci, h1.1⟩
          · exact (ih cs hrc).mp h1.2 kv' hkv'
        · intro hsat
          apply (Bool.and_eq_true _ _).mpr
          constructor
          · obtain ⟨i', hi', hs⟩ := hsat kv (List.mem_cons_self kv rest)
            rw [hci] at hi'
            injection hi' with hi'
            subst hi'
            exact hs
          · exact (ih cs hrc).mpr (fun kv' hkv' => hsat kv' (List.mem_cons_of_mem kv hkv'))

theorem sqliteMax_int : ∀ (ns : List Int) (n : Int),
    ∃ m, sqliteMax ((n :: ns).map VInt) = some (VInt m) ∧
      m ∈ n :: ns ∧ ∀ x ∈ n :: ns, x ≤ m := by
  intro ns
  induction ns with
  | nil =>
    intro n
    exact ⟨n, by simp [sqliteMax, sqlMaxStep], by simp, by simp⟩
  | cons n' ns ih =>
    intro n
    obtain ⟨m', hmax, hmem, hbound⟩ := ih n'
    by_cases hlt : n < m'
    · refine ⟨m', ?_, ?_, ?_⟩
      · simp only [List.map_cons] at hmax ⊢
        rw [sqliteMax, hmax]
        simp [sqlMaxStep, valueLt, hlt]
      · exact List.mem_cons_of_mem n hmem
      · intro x hx
        rcases List.mem_cons.mp hx with hx | hx
        · subst hx; exact le_of_lt hlt
        · exact hbound x hx
    · refine ⟨n, ?_, ?_, ?_⟩
      · simp only [List.map_cons] at hmax ⊢
        rw [sqliteMax, hmax]
        simp [sqlMaxStep, valueLt, hlt]
      · exact List.mem_cons_self n (n' :: ns)
      · intro x hx
        rcases List.mem_cons.mp hx with hx | hx
        · subst hx; exact le_refl _
        · exact le_trans (hbound x hx) (not_lt.mp hlt)

theorem get_str_alpha (p : String) :
    ∀ (inputs : List String) (s : String) (outs rem : List String),
      get_str p inputs = some (s, outs, rem) → pyIsAlpha s = true := by
  intro inputs
  induction inputs with
  | nil =>
    intro s outs rem h
    simp [get_str] at h
  | cons line rest ih =>
    intro s outs rem h
    by_cases hl : pyIsAlpha line
    · rw [get_str, if_pos hl] at h
      injection h with h
      rw [← (Prod.mk.injEq _ _ _ _).mp h |>.1]
      exact hl
    · rw [get_str, if_neg hl] at h
      cases hr : get_str p rest with
      | none => rw [hr] at h; exact absurd h (by simp)
      | some r =>
        obtain ⟨v, outs', rem'⟩ := r
        rw [hr] at h
        injection h with h
        have hv : v = s := ((Prod.mk.injEq _ _ _ _).mp h).1
        exact hv ▸ ih v outs' rem' hr

theorem appendOnly_refl (db : DB) : AppendOnly db db :=
  fun _ t h => ⟨t, h, rfl, Or.inl rfl⟩

theorem insert_appendOnly (db : DB) (table : String) (vs : List Value) (db' : DB)
    (h : insert_into_table db table vs = .ok db') : AppendOnly db db' := by
  unfold insert_into_table at h
  cases ht : db.lookup table with
  | none => rw [ht] at h; exact absurd h (by simp)
  | some t =>
    rw [ht] at h
    dsimp only at h
    by_cases ha : vs.length = t.cols.length
    · rw [if_pos ha] at h
      injection h with h
      subst h
      intro name t0 h0
      by_cases hn : name = table
      · subst hn
        have htt : t0 = t := by
          rw [h0] at ht
          injection ht
        subst htt
        have hl := lookup_updateTable db name name ⟨t0.cols, t0.rows ++ [vs]⟩
        rw [if_pos rfl, h0] at hl
        exact ⟨⟨t0.cols, t0.rows ++ [vs]⟩, by simpa using hl, rfl, Or.inr ⟨vs, rfl⟩⟩
      · have hl := lookup_updateTable db table name ⟨t.cols, t.rows ++ [vs]⟩
        rw [if_neg hn] at hl
        exact ⟨t0, by rw [hl]; exact h0, rfl, Or.inl rfl⟩
    · rw [if_neg ha] at h
      exact absurd h (by simp)

/-- C5: calling the schema-ensure operation twice with the same arguments
produces no duplicate table: the second call is the identity on the store,
leaving schema and rows exactly as the first call left them. -/
theorem create_table_idempotent (db : DB) (table_name : String) (columns : List String) :
    create_table (create_table db table_name columns) table_name columns =
      create_table db table_name columns := by
  cases h : db.lookup table_name with
  | some t => simp [create_table, h]
  | none =>
    have h1 : create_table db table_name columns = db ++ [(table_name, ⟨columns, []⟩)] := by
      simp [create_table, h]
    rw [h1, create_table, if_pos (lookup_append_isSome db table_name ⟨columns, []⟩)]

/-- C4: inserting values V (of matching arity) into table T and then
fetching all rows of T yields the prior rows extended with exactly the row
V, in the same column order; in particular a row equal to V is present. -/
theorem insert_then_view (db : DB) (table_name : String) (t : Table) (values : List Value)
    (ht : db.lookup table_name = some t) (harity : values.length = t.cols.length) :
    insert_into_table db table_name values =
        .ok (updateTable db table_name ⟨t.cols, t.rows ++ [values]⟩) ∧
      view_table (updateTable db table_name ⟨t.cols, t.rows ++ [values]⟩) table_name =
        .ok (t.cols.map colName, t.rows ++ [values]) ∧
      values ∈ t.rows ++ [values] := by
  refine ⟨?_, ?_, by simp⟩
  · simp [insert_into_table, ht, harity]
  · have hl := lookup_updateTable db table_name table_name ⟨t.cols, t.rows ++ [values]⟩
    rw [if_pos rfl, ht] at hl
    simp at hl
    simp [view_table, hl]

theorem insert_then_view_witness :
    insert_into_table dbStart "Drinks" negroniRow =
        .ok (updateTable dbStart "Drinks" ⟨drinksCols, [] ++ [negroniRow]⟩) ∧
      view_table (updateTable dbStart "Drinks" ⟨drinksCols, [] ++ [negroniRow]⟩) "Drinks" =
        .ok (drinksCols.map colName, [] ++ [negroniRow]) ∧
      negroniRow ∈ ([] : List (List Value)) ++ [negroniRow] :=
  insert_then_view dbStart "Drinks" ⟨drinksCols, []⟩ negroniRow (by decide) (by decide)

/-- C9: every operation of the program is append-only on the store. -/
theorem runOp_append_only (db : DB) (op : Op) (db' : DB) (h : runOp db op = .ok db') :
    AppendOnly db db' := by
  cases op with
  | createTable n cols =>
    simp only [runOp] at h
    injection h with h
    subst h
    unfold create_table
    by_cases hs : (db.lookup n).isSome
    · rw [if_pos hs]
      exact appendOnly_refl db
    · rw [if_neg hs]
      intro name t h0
      exact ⟨t, lookup_append_left db _ name t h0, rfl, Or.inl rfl⟩
  | existsCheck tb kw =>
    simp only [runOp] at h
    cases he : entry_already_exists db tb kw with
    | error e => rw [he] at h; exact absurd h (by simp [Except.map])
    | ok b =>
      rw [he] at h
      simp only [Except.map] at h
      injection h with h
      subst h
      exact appendOnly_refl db
  | insertRow tb vs => exact insert_appendOnly db tb vs db' h
  | viewTable tb =>
    simp only [runOp] at h
    cases he : view_table db tb with
    | error e => rw [he] at h; exact absurd h (by simp [Except.map])
    | ok b =>
      rw [he] at h
      simp only [Except.map] at h
      injection h with h
      subst h
      exact appendOnly_refl db
  | askInsert tb create inputs =>
    simp only [runOp] at h
    cases ha : ask_and_insert_entry db tb create inputs with
    | error e => rw [ha] at h; exact absurd h (by simp [Except.map])
    | ok r =>
      rw [ha] at h
      obtain ⟨db2, outs⟩ := r
      simp only [Except.map] at h
      injection h with h
      subst h
      unfold ask_and_insert_entry at ha
      cases hc : create db inputs with
      | error e => rw [hc] at ha; simp [bind, Except.bind] at ha
      | ok pr =>
        obtain ⟨entry_data, rest⟩ := pr
        rw [hc] at ha
        simp only [bind, Except.bind] at ha
        cases entry_data with
        | nil => simp at ha
        | cons v0 vsx =>
          dsimp only at ha
          cases hee : entry_already_exists db tb [("id", v0)] with
          | error e => rw [hee] at ha; simp at ha
          | ok bb =>
            rw [hee] at ha
            cases bb with
            | false =>
              simp only at ha
              cases hi : insert_into_table db tb (v0 :: vsx) with
              | error e => rw [hi] at ha; simp at ha
              | ok dbi =>
                rw [hi] at ha
                simp only [pure, Except.pure] at ha
                injection ha with ha
                injection ha with h1 h2
                rw [← h1]
                exact insert_appendOnly db tb (v0 :: vsx) dbi hi
            | true =>
              simp only [pure, Except.pure] at ha
              injection ha with ha
              injection ha with h1 h2
              rw [← h1]
              exact appendOnly_refl db

theorem runOp_append_only_witness : AppendOnly dbStart dbOne :=
  runOp_append_only dbStart (Op.insertRow "Drinks" negroniRow) dbOne rfl

/-- C3: the existence checker returns true iff at least one stored row
satisfies SQL equality on every named column simultaneously (logical AND);
with the single constraint id = X it returns true iff some stored row has
identifier X, regardless of the row's other column values. -/
theorem entry_already_exists_iff (db : DB) (table : String)
    (kwargs : List (String × Value)) (t : Table) (conds : List (Nat × Value))
    (ht : db.lookup table = some t) (hconds : resolveConds t kwargs = some conds) :
    (entry_already_exists db table kwargs = .ok true ↔
        ∃ row ∈ t.rows, RowSatisfies t row kwargs) ∧
    (∀ (x : Value) (i : Nat), kwargs = [("id", x)] → colIndex t "id" = some i →
        (entry_already_exists db table kwargs = .ok true ↔
          ∃ row ∈ t.rows, sqlEq (row.getD i VNull) x = true)) := by
  have hmain : entry_already_exists db table kwargs = .ok true ↔
      ∃ row ∈ t.rows, RowSatisfies t row kwargs := by
    unfold entry_already_exists
    rw [ht]
    dsimp only
    rw [hconds]
    dsimp only
    constructor
    · intro h
      injection h with h
      have hp := of_decide_eq_true h
      obtain ⟨row, hrow, hpred⟩ := List.countP_pos_iff.mp hp
      exact ⟨row, hrow, (conds_all_iff t row kwargs conds hconds).mp hpred⟩
    · rintro ⟨row, hrow, hsat⟩
      have hpos : 0 < t.rows.countP
          (fun row => conds.all (fun c => sqlEq (row.getD c.1 VNull) c.2)) :=
        List.countP_pos_iff.mpr
          ⟨row, hrow, (conds_all_iff t row kwargs conds hconds).mpr hsat⟩
      rw [decide_eq_true hpos]
  refine ⟨hmain, ?_⟩
  intro x i hk hi
  subst hk
  rw [hmain]
  constructor
  · rintro ⟨row, hrow, hsat⟩
    obtain ⟨i', hi', hs⟩ := hsat ("id", x) (by simp)
    rw [hi] at hi'
    injection hi' with hi''
    exact ⟨row, hrow, hi'' ▸ hs⟩
  · rintro ⟨row, hrow, hs⟩
    refine ⟨row, hrow, ?_⟩
    intro kv hkv
    simp only [List.mem_singleton] at hkv
    subst hkv
    exact ⟨i, hi, hs⟩

theorem entry_already_exists_iff_witness :
    entry_already_exists dbOne "Drinks" [("id", VInt 1)] = .ok true :=
  ((entry_already_exists_iff dbOne "Drinks" [("id", VInt 1)]
      ⟨drinksCols, [negroniRow]⟩ [(0, VInt 1)] (by decide) (by decide)).2
    (VInt 1) 0 rfl (by decide)).mpr ⟨negroniRow, by decide, by decide⟩

/-- C1: the entry orchestrator discards a candidate whose identifier
already appears in the table (reporting the duplicate and leaving the
store untouched, so row count and contents are unchanged); when no stored
row has that identifier it hands the full record to the record writer.
The duplicate test looks only at the id column, never at the full record. -/
theorem ask_and_insert_entry_spec (db : DB) (table : String) (t : Table) (i : Nat)
    (create : DB → List String → Except String (List Value × List String))
    (inputs : List String) (v0 : Value) (vs : List Value) (rest : List String)
    (ht : db.lookup table = some t) (hid : colIndex t "id" = some i)
    (hcreate : create db inputs = .ok (v0 :: vs, rest)) :
    ((∃ row ∈ t.rows, sqlEq (row.getD i VNull) v0 = true) →
        ask_and_insert_entry db table create inputs =
          .ok (db, ["This " ++ entryType table ++ " already exists."])) ∧
    ((∀ row ∈ t.rows, sqlEq (row.getD i VNull) v0 = false) →
        ask_and_insert_entry db table create inputs =
          (insert_into_table db table (v0 :: vs)).map (fun db2 => (db2, []))) := by
  have hconds : resolveConds t [("id", v0)] = some [(i, v0)] := by
    simp [resolveConds, hid]
  have hee : entry_already_exists db table [("id", v0)] =
      .ok (decide (0 < t.rows.countP
        (fun row => [(i, v0)].all (fun c => sqlEq (row.getD c.1 VNull) c.2)))) := by
    unfold entry_already_exists
    rw [ht]
    dsimp only
    rw [hconds]
  constructor
  · rintro ⟨row, hrow, hs⟩
    have hpos : 0 < t.rows.countP
        (fun row => [(i, v0)].all (fun c => sqlEq (row.getD c.1 VNull) c.2)) :=
      List.countP_pos_iff.mpr
        ⟨row, hrow, by
          simp only [List.all_cons, List.all_nil, Bool.and_true]
          exact hs⟩
    unfold ask_and_insert_entry
    rw [hcreate]
    dsimp only [bind, Except.bind]
    rw [hee, decide_eq_true hpos]
    rfl
  · intro hall
    have hzero : t.rows.countP
        (fun row => [(i, v0)].all (fun c => sqlEq (row.getD c.1 VNull) c.2)) = 0 := by
      apply List.countP_eq_zero.mpr
      intro row hrow
      simp only [List.all_cons, List.all_nil, Bool.and_true]
      rw [hall row hrow]
      simp
    unfold ask_and_insert_entry
    rw [hcreate]
    dsimp only [bind, Except.bind]
    rw [hee, hzero]
    show (match insert_into_table db table (v0 :: vs) with
      | Except.error e => Except.error e
      | Except.ok db2 => pure (db2, ([] : List String))) =
        (insert_into_table db table (v0 :: vs)).map (fun db2 => (db2, []))
    cases hi2 : insert_into_table db table (v0 :: vs) <;>
      simp [Except.map, hi2, pure, Except.pure]

theorem ask_and_insert_entry_spec_witness :
    ask_and_insert_entry dbOne "Drinks"
        (fun _ _ => .ok ([VInt 1, VStr "Gin", VStr "", VStr "Stirred", VStr ""], [])) [] =
      .ok (dbOne, ["This " ++ entryType "Drinks" ++ " already exists."]) :=
  (ask_and_insert_entry_spec dbOne "Drinks" ⟨drinksCols, [negroniRow]⟩ 0
      (fun _ _ => .ok ([VInt 1, VStr "Gin", VStr "", VStr "Stirred", VStr ""], []))
      [] (VInt 1) [VStr "Gin", VStr "", VStr "Stirred", VStr ""] []
      (by decide) (by decide) rfl).1 ⟨negroniRow, by decide, by decide⟩

/-- C2: each entry builder (Drink on Drinks, Ingredient on Ingredients)
assigns identifier 1 when its table has no rows, and one more than the
maximum identifier currently present when it is non-empty. -/
theorem builder_id_assignment :
    (∀ (db : DB) (t : Table) (i : Nat) (inputs : List String)
        (e : List Value) (rest : List String),
      db.lookup "Drinks" = some t → colIndex t "id" = some i →
      Drink.create db inputs = .ok (e, rest) →
      ((t.rows = [] → e.headD VNull = VInt 1) ∧
        (∀ (n : Int) (ns : List Int),
          t.rows.map (fun r => r.getD i VNull) = (n :: ns).map VInt →
          ∃ m, m ∈ n :: ns ∧ (∀ x ∈ n :: ns, x ≤ m) ∧
            e.headD VNull = VInt (m + 1)))) ∧
    (∀ (db : DB) (t : Table) (i : Nat) (inputs : List String)
        (e : List Value) (rest : List String),
      db.lookup "Ingredients" = some t → colIndex t "id" = some i →
      Ingredient.create db inputs = .ok (e, rest) →
      ((t.rows = [] → e.headD VNull = VInt 1) ∧
        (∀ (n : Int) (ns : List Int),
          t.rows.map (fun r => r.getD i VNull) = (n :: ns).map VInt →
          ∃ m, m ∈ n :: ns ∧ (∀ x ∈ n :: ns, x ≤ m) ∧
            e.headD VNull = VInt (m + 1)))) := by
  constructor
  · intro db t i inputs e rest ht hid hcreate
    have hsel : selectMaxId db "Drinks" =
        .ok (sqliteMax (t.rows.map (fun r => r.getD i VNull))) := by
      unfold selectMaxId
      rw [ht]
      dsimp only
      rw [hid]
    constructor
    · intro hrows
      rw [hrows] at hsel
      simp only [List.map_nil] at hsel
      unfold Drink.create at hcreate
      rw [hsel] at hcreate
      dsimp only [bind, Except.bind, sqliteMax, pure, Except.pure] at hcreate
      rcases inputs with _ | ⟨a, _ | ⟨b, _ | ⟨c, _ | ⟨d, r⟩⟩⟩⟩
      · exact absurd hcreate (by simp)
      · exact absurd hcreate (by simp)
      · exact absurd hcreate (by simp)
      · exact absurd hcreate (by simp)
      · dsimp only at hcreate
        injection hcreate with hcreate
        injection hcreate with h1 h2
        rw [← h1]
        rfl
    · intro n ns hmap
      obtain ⟨m, hmax, hmem, hbound⟩ := sqliteMax_int ns n
      rw [hmap, hmax] at hsel
      refine ⟨m, hmem, hbound, ?_⟩
      unfold Drink.create at hcreate
      rw [hsel] at hcreate
      dsimp only [bind, Except.bind, pyAddOne, pure, Except.pure] at hcreate
      rcases inputs with _ | ⟨a, _ | ⟨b, _ | ⟨c, _ | ⟨d, r⟩⟩⟩⟩
      · exact absurd hcreate (by simp)
      · exact absurd hcreate (by simp)
      · exact absurd hcreate (by simp)
      · exact absurd hcreate (by simp)
      · dsimp only at hcreate
        injection hcreate with hcreate
        injection hcreate with h1 h2
        rw [← h1]
        rfl
  · intro db t i inputs e rest ht hid hcreate
    have hsel : selectMaxId db "Ingredients" =
        .ok (sqliteMax (t.rows.map (fun r => r.getD i VNull))) := by
      unfold selectMaxId
      rw [ht]
      dsimp only
      rw [hid]
    constructor
    · intro hrows
      rw [hrows] at hsel
      simp only [List.map_nil] at hsel
      unfold Ingredient.create at hcreate
      rw [hsel] at hcreate
      dsimp only [bind, Except.bind, sqliteMax, pure, Except.pure] at hcreate
      rcases inputs with _ | ⟨c1, _ | ⟨c2, _ | ⟨c3, _ | ⟨c4, _ | ⟨c5, _ | ⟨c6, r⟩⟩⟩⟩⟩⟩
      · exact absurd hcreate (by simp)
      · exact absurd hcreate (by simp)
      · exact absurd hcreate (by simp)
      · exact absurd hcreate (by simp)
      · exact absurd hcreate (by simp)
      · exact absurd hcreate (by simp)
      · dsimp only at hcreate
        cases hgf : get_float "Enter the ABV: " r with
        | none =>
          rw [hgf] at hcreate
          exact absurd hcreate (by simp)
        | some tri =>
          obtain ⟨abv, outs, rem⟩ := tri
          rw [hgf] at hcreate
          dsimp only at hcreate
          injection hcreate with hcreate
          injection hcreate with h1 h2
          rw [← h1]
          rfl
    · intro n ns hmap
      obtain ⟨m, hmax, hmem, hbound⟩ := sqliteMax_int ns n
      rw [hmap, hmax] at hsel
      refine ⟨m, hmem, hbound, ?_⟩
      unfold Ingredient.create at hcreate
      rw [hsel] at hcreate
      dsimp only [bind, Except.bind, pyAddOne, pure, Except.pure] at hcreate
      rcases inputs with _ | ⟨c1, _ | ⟨c2, _ | ⟨c3, _ | ⟨c4, _ | ⟨c5, _ | ⟨c6, r⟩⟩⟩⟩⟩⟩
      · exact absurd hcreate (by simp)
      · exact absurd hcreate (by simp)
      · exact absurd hcreate (by simp)
      · exact absurd hcreate (by simp)
      · exact absurd hcreate (by simp)
      · exact absurd hcreate (by simp)
      · dsimp only at hcreate
        cases hgf : get_float "Enter the ABV: " r with
        | none =>
          rw [hgf] at hcreate
          exact absurd hcreate (by simp)
        | some tri =>
          obtain ⟨abv, outs, rem⟩ := tri
          rw [hgf] at hcreate
          dsimp only at hcreate
          injection hcreate with hcreate
          injection hcreate with h1 h2
          rw [← h1]
          rfl

theorem builder_id_assignment_witness :
    negroniRow.headD VNull = VInt 1 ∧ ingCreateResW.1.headD VNull = VInt 1 :=
  ⟨(builder_id_assignment.1 dbStart ⟨drinksCols, []⟩ 0 negroniInputs negroniRow []
      (by decide) (by decide) rfl).1 rfl,
   (builder_id_assignment.2 dbStart ⟨ingredientsCols, []⟩ 0 ingInputsW
      ingCreateResW.1 ingCreateResW.2 (by decide) (by decide) rfl).1 rfl⟩

/-- C6: the integer input reader returns the value of the first input line
that parses as an integer, printing the error line and reprompting for
every earlier (non-parsing) line. -/
theorem get_int_first_valid (p : String) (bad : List String) (line : String)
    (rest : List String) (n : Int)
    (hbad : ∀ l ∈ bad, pyParseInt l = none) (hline : pyParseInt line = some n) :
    get_int p (bad ++ line :: rest) =
      some (n, retryOuts p intErrMsg bad.length, rest) := by
  induction bad with
  | nil => simp [get_int, hline, retryOuts]
  | cons b bs ih =>
    have hb : pyParseInt b = none := hbad b (by simp)
    rw [List.cons_append, get_int, hb,
      ih (fun l hl => hbad l (by simp [hl]))]
    simp [retryOuts]

theorem get_int_first_valid_witness :
    get_int "Enter a number: " ["abc", "12.5", "7"] =
      some (7, retryOuts "Enter a number: " intErrMsg 2, []) :=
  get_int_first_valid "Enter a number: " ["abc", "12.5"] "7" [] 7
    (by decide) (by decide)

/-- C7: the alphabetic reader rejects (reprompting with an error line on)
every input line that contains a non-letter character, and returns the
first input line that is a nonempty run of letters. -/
theorem get_str_first_letters (p : String) (bad : List String) (line : String)
    (rest : List String)
    (hbad : ∀ l ∈ bad, ∃ c ∈ l.toList, ¬ c.isAlpha)
    (hline : line.toList ≠ [] ∧ ∀ c ∈ line.toList, c.isAlpha) :
    get_str p (bad ++ line :: rest) =
      some (line, retryOuts p strErrMsg bad.length, rest) := by
  have hlineT : pyIsAlpha line = true := by
    obtain ⟨h1, h2⟩ := hline
    unfold pyIsAlpha
    cases hte : line.toList with
    | nil => exact absurd hte h1
    | cons c cs =>
      rw [hte] at h2
      simp [List.all_eq_true, h2]
      exact fun x hx => h2 x (List.mem_cons_of_mem c hx)
  induction bad with
  | nil => simp [get_str, hlineT, retryOuts]
  | cons b bs ih =>
    have hb : pyIsAlpha b = false := by
      obtain ⟨c, hc, hcn⟩ := hbad b (by simp)
      unfold pyIsAlpha
      rw [Bool.and_eq_false_iff]
      right
      rw [List.all_eq_false]
      exact ⟨c, hc, hcn⟩
    rw [List.cons_append, get_str]
    rw [if_neg (by simp [hb])]
    rw [ih (fun l hl => hbad l (by simp [hl]))]
    simp [retryOuts]

theorem get_str_first_letters_witness :
    get_str "Enter your name: " ["John3", "Ann Smith", "John"] =
      some ("John", retryOuts "Enter your name: " strErrMsg 2, []) :=
  get_str_first_letters "Enter your name: " ["John3", "Ann Smith"] "John" []
    (by decide) (by decide)

/-- C10: the alphabetic reader never returns the empty string: every value
it returns is nonempty and consists of letters only; an empty input line
is rejected like any other invalid line, with the error message printed
before reprompting on the remaining input. -/
theorem get_str_never_empty :
    (∀ (p : String) (inputs : List String) (s : String) (outs rem : List String),
      get_str p inputs = some (s, outs, rem) →
      s ≠ "" ∧ s.toList.all Char.isAlpha = true) ∧
    (∀ (p : String) (rest : List String),
      get_str p ("" :: rest) =
        match get_str p rest with
        | none => none
        | some (v, outs, rem) => some (v, p :: strErrMsg :: outs, rem)) := by
  constructor
  · intro p inputs s outs rem h
    have ha := get_str_alpha p inputs s outs rem h
    unfold pyIsAlpha at ha
    rw [Bool.and_eq_true] at ha
    obtain ⟨ha1, ha2⟩ := ha
    refine ⟨?_, ha2⟩
    intro hempty
    subst hempty
    simp at ha1
  · intro p rest
    rw [get_str, if_neg (by decide)]

theorem get_str_never_empty_witness :
    "ab" ≠ "" ∧ "ab".toList.all Char.isAlpha = true :=
  get_str_never_empty.1 "p" ["", "ab"] "ab" ["p", strErrMsg, "p"] [] rfl

/-- C8 (amended): every store access opens a connection, runs a single
statement, commits when mutating, and closes the connection when the
statement succeeds; when the executed statement raises, the function is
left before the close line and no close event occurs. -/
theorem conn_events_spec :
    (∀ (db : DB) (n : String) (cols : List String),
      (create_table_events db n cols).2 =
        [ConnEvent.opened, ConnEvent.committed, ConnEvent.closed]) ∧
    (∀ (db : DB) (table : String) (kwargs : List (String × Value)) (b : Bool),
      (entry_already_exists_events db table kwargs).1 = .ok b →
      (entry_already_exists_events db table kwargs).2 =
        [ConnEvent.opened, ConnEvent.closed]) ∧
    (∀ (db : DB) (table : String) (kwargs : List (String × Value)) (e : String),
      (entry_already_exists_events db table kwargs).1 = .error e →
      (entry_already_exists_events db table kwargs).2 = [ConnEvent.opened]) := by
  refine ⟨fun _ _ _ => rfl, ?_, ?_⟩
  · intro db table kwargs b h
    unfold entry_already_exists_events at h ⊢
    cases he : entry_already_exists db table kwargs with
    | error e => rw [he] at h; simp at h
    | ok bb => rfl
  · intro db table kwargs e h
    unfold entry_already_exists_events at h ⊢
    cases he : entry_already_exists db table kwargs with
    | error e2 => rfl
    | ok bb => rw [he] at h; simp at h

theorem conn_events_spec_witness :
    (create_table_events [] "Drinks" drinksCols).2 =
        [ConnEvent.opened, ConnEvent.committed, ConnEvent.closed] ∧
      (entry_already_exists_events dbOne "Drinks" [("id", VInt 1)]).2 =
        [ConnEvent.opened, ConnEvent.closed] :=
  ⟨conn_events_spec.1 [] "Drinks" drinksCols,
   conn_events_spec.2.1 dbOne "Drinks" [("id", VInt 1)] true rfl⟩

/-- C8 as stated is false of the code: with an empty store the existence
check's SELECT raises (no such table) and the function returns with the
connection opened but never closed. -/
theorem conn_close_counterexample :
    (entry_already_exists_events [] "Drinks" [("id", VInt 1)]).1 =
        .error "no such table: Drinks" ∧
      (entry_already_exists_events [] "Drinks" [("id", VInt 1)]).2 =
        [ConnEvent.opened] ∧
      (entry_already_exists_events [] "Drinks" [("id", VInt 1)]).2.count
          ConnEvent.closed = 0 :=
  ⟨rfl, rfl, rfl⟩
